import Mathlib

/-!
Shallow embedding of the timeline/notation core of cadence-app
(scripts/musicxml_parser.py, class MusicXMLParser) and proofs of the
spec claims about it.

Numbers that the source handles as Python floats (offsets, durations,
seconds, BPM) are modelled as rationals, so all comparisons and
arithmetic are exact.  Collaborator-supplied objects (music21 elements)
are modelled as plain data carrying exactly the attributes the source
reads from them.
-/

/-- A pitch as exposed by the collaborator (music21 Pitch): the source
reads name, octave, midi and frequency. -/
structure MPitch where
  name : String
  octave : Int
  midi : Int
  frequency : ℚ
  deriving DecidableEq

/-- The kind-specific payload of a flattened score element.  A note or
chord carries an optional velocity attribute (none models a source
element that does not specify a velocity, in which case the source's
getattr default applies).  A chord also carries the collaborator-computed
root name and quality that the source reads. -/
inductive MElement where
  | note (p : MPitch) (velocity : Option Int) (articulations : List String)
  | chord (pitches : List MPitch) (velocity : Option Int)
      (root : Option String) (quality : Option String)
  | rest
  deriving DecidableEq

/-- A flattened element of one part, as produced by part.flatten().
offsetQuarters is absolute within the part (el.offset); durationQuarters
is el.duration.quarterLength, with none modelling an element that lacks
required duration information (reading it raises in the source);
measureNumber is the result of the getContextByClass(Measure) lookup. -/
structure ScoreElement where
  elem : MElement
  offsetQuarters : ℚ
  durationQuarters : Option ℚ
  measureNumber : Option Int
  deriving DecidableEq

/-- _quarter_length_to_seconds: seconds = (60 / bpm) * quarter_length. -/
def quarterLengthToSeconds (bpm : ℚ) (quarterLength : ℚ) : ℚ :=
  (60 / bpm) * quarterLength

/-- The timing dictionary built once per element in
_extract_notes_and_timing. -/
structure Timing where
  start_time_quarters : ℚ
  duration_quarters : ℚ
  start_time_seconds : ℚ
  duration_seconds : ℚ
  measure_number : Option Int
  deriving DecidableEq

/-- The canonical timeline event (one entry of parsed_data.notes).
Fields that only some kinds of event carry are Option-valued; none means
the dictionary key is absent in the source output. -/
structure TimedEvent where
  kind : String
  pitch : Option String
  octave : Option Int
  midi_number : Option Int
  frequency : Option ℚ
  duration_quarters : ℚ
  duration_seconds : ℚ
  start_time_quarters : ℚ
  start_time_seconds : ℚ
  measure_number : Option Int
  velocity : Option Int
  articulation : Option (List String)
  chord_root : Option (Option String)
  chord_quality : Option (Option String)
  deriving DecidableEq

/-- _create_note_data: velocity is getattr(note_obj, velocity, 64), so an
unspecified velocity falls back to 64. -/
def createNoteData (p : MPitch) (vel : Option Int) (arts : List String)
    (t : Timing) : TimedEvent :=
  { kind := "note"
    pitch := some p.name
    octave := some p.octave
    midi_number := some p.midi
    frequency := some p.frequency
    duration_quarters := t.duration_quarters
    duration_seconds := t.duration_seconds
    start_time_quarters := t.start_time_quarters
    start_time_seconds := t.start_time_seconds
    measure_number := t.measure_number
    velocity := some (vel.getD 64)
    articulation := some arts
    chord_root := none
    chord_quality := none }

/-- _create_chord_note_data: one event for one pitch of a chord; timing,
measure and velocity come from the chord object itself. -/
def createChordNoteData (vel : Option Int) (root : Option String)
    (quality : Option String) (p : MPitch) (t : Timing) : TimedEvent :=
  { kind := "chord_note"
    pitch := some p.name
    octave := some p.octave
    midi_number := some p.midi
    frequency := some p.frequency
    duration_quarters := t.duration_quarters
    duration_seconds := t.duration_seconds
    start_time_quarters := t.start_time_quarters
    start_time_seconds := t.start_time_seconds
    measure_number := t.measure_number
    velocity := some (vel.getD 64)
    articulation := none
    chord_root := some root
    chord_quality := some quality }

/-- _create_rest_data: the rest dictionary carries only timing and
measure; in particular it has no velocity key. -/
def createRestData (t : Timing) : TimedEvent :=
  { kind := "rest"
    pitch := none
    octave := none
    midi_number := none
    frequency := none
    duration_quarters := t.duration_quarters
    duration_seconds := t.duration_seconds
    start_time_quarters := t.start_time_quarters
    start_time_seconds := t.start_time_seconds
    measure_number := t.measure_number
    velocity := none
    articulation := none
    chord_root := none
    chord_quality := none }

/-- The per-element body of the loop in _extract_notes_and_timing.
Reading the duration of an element that lacks it raises, so the whole
build fails (Except.error); otherwise the element is classified and
exploded (a chord yields one chord_note event per pitch, in pitch
order). -/
def processElement (bpm : ℚ) (e : ScoreElement) :
    Except String (List TimedEvent) :=
  match e.durationQuarters with
  | none => .error "missing duration"
  | some durQ =>
    let timing : Timing :=
      { start_time_quarters := e.offsetQuarters
        duration_quarters := durQ
        start_time_seconds := quarterLengthToSeconds bpm e.offsetQuarters
        duration_seconds := quarterLengthToSeconds bpm durQ
        measure_number := e.measureNumber }
    match e.elem with
    | .note p vel arts => .ok [createNoteData p vel arts timing]
    | .chord ps vel root quality =>
        .ok (ps.map fun p => createChordNoteData vel root quality p timing)
    | .rest => .ok [createRestData timing]

/-- The inner loop of _extract_notes_and_timing over one flattened part;
the first element whose duration cannot be read aborts the build. -/
def buildPart (bpm : ℚ) : List ScoreElement → Except String (List TimedEvent)
  | [] => .ok []
  | e :: es =>
    match processElement bpm e with
    | .error m => .error m
    | .ok evs =>
      match buildPart bpm es with
      | .error m => .error m
      | .ok rest => .ok (evs ++ rest)

/-- The outer loop of _extract_notes_and_timing over self.score.parts:
concatenation of every part's events, in part order. -/
def collectRawEvents (bpm : ℚ) :
    List (List ScoreElement) → Except String (List TimedEvent)
  | [] => .ok []
  | p :: ps =>
    match buildPart bpm p with
    | .error m => .error m
    | .ok evs =>
      match collectRawEvents bpm ps with
      | .error m => .error m
      | .ok rest => .ok (evs ++ rest)

/-- The sort key comparison used by notes_data.sort
(key start_time_seconds). -/
def leStart (a b : TimedEvent) : Prop :=
  a.start_time_seconds ≤ b.start_time_seconds

instance : DecidableRel leStart := fun a b =>
  inferInstanceAs (Decidable (a.start_time_seconds ≤ b.start_time_seconds))

instance : IsTotal TimedEvent leStart :=
  ⟨fun a b => le_total a.start_time_seconds b.start_time_seconds⟩

instance : IsTrans TimedEvent leStart :=
  ⟨fun _ _ _ hab hbc => le_trans hab hbc⟩

/-- Python list.sort with a key is a stable sort; modelled by insertion
sort with the non-strict key comparison, which is stable. -/
def stableSortByStart (l : List TimedEvent) : List TimedEvent :=
  List.insertionSort leStart l

/-- Python max(gen, default) : the maximum of a nonempty list, else the
default. -/
def pyMax (default : ℚ) : List ℚ → ℚ
  | [] => default
  | x :: xs => xs.foldl max x

/-- total_duration = max of start_time_seconds + duration_seconds over
all events, default 0.0. -/
def totalDurationOf (notes : List TimedEvent) : ℚ :=
  pyMax 0 (notes.map fun n => n.start_time_seconds + n.duration_seconds)

/-- _extract_notes_and_timing: walk all parts, sort the merged list by
start_time_seconds (stable), and compute total_duration from the result. -/
def extractNotesAndTiming (bpm : ℚ) (parts : List (List ScoreElement)) :
    Except String (List TimedEvent × ℚ) :=
  match collectRawEvents bpm parts with
  | .error m => .error m
  | .ok raw =>
    let sorted := stableSortByStart raw
    .ok (sorted, totalDurationOf sorted)

/-- get_notes_for_range: iterate over parsed_data.notes appending the
events that overlap the window.  end_seconds is optional and defaults to
parsed_data.total_duration. -/
def getNotesForRange (notes : List TimedEvent) (totalDuration : ℚ)
    (startSeconds : ℚ) (endSeconds : Option ℚ) : List TimedEvent :=
  let e := match endSeconds with
    | none => totalDuration
    | some x => x
  notes.foldl
    (fun filtered n =>
      if n.start_time_seconds < e ∧
          n.start_time_seconds + n.duration_seconds > startSeconds then
        filtered ++ [n]
      else filtered)
    []

/-- The inclusion rule as the spec states it, for comparison with the
source loop. -/
def rangeSpecIncluded (startSeconds endSeconds : ℚ) (n : TimedEvent) : Prop :=
  n.start_time_seconds < endSeconds ∧
    n.start_time_seconds + n.duration_seconds > startSeconds

instance (s e : ℚ) (n : TimedEvent) : Decidable (rangeSpecIncluded s e n) :=
  inferInstanceAs (Decidable (_ ∧ _))

/-- One record of get_midi_notes_for_game.  The source builds measure
with note_data.get, but every creator writes the measure_number key (a
null value when the element has no enclosing measure), so the lookup
always returns the stored value and the written default of 1 is dead. -/
structure GameNote where
  midi_number : Option Int
  start_time_ms : ℚ
  duration_ms : ℚ
  pitch_name : String
  velocity : Int
  measure : Option Int
  note_type : String
  deriving DecidableEq

/-- The per-event conversion inside get_midi_notes_for_game. -/
def toGameNote (n : TimedEvent) : GameNote :=
  { midi_number := n.midi_number
    start_time_ms := n.start_time_seconds * 1000
    duration_ms := n.duration_seconds * 1000
    pitch_name := (n.pitch.getD "") ++ ((n.octave.map toString).getD "")
    velocity := n.velocity.getD 64
    measure := n.measure_number
    note_type := if n.duration_seconds > 1/2 then "hold" else "tap" }

/-- get_midi_notes_for_game: iterate over parsed_data.notes, keeping only
note and chord_note events and converting each to game format. -/
def getMidiNotesForGame (notes : List TimedEvent) : List GameNote :=
  notes.foldl
    (fun gameNotes n =>
      if n.kind = "note" ∨ n.kind = "chord_note" then
        gameNotes ++ [toGameNote n]
      else gameNotes)
    []

/-- The duration_map of _duration_to_vexflow, in the source's insertion
order. -/
def durationMap : List (ℚ × String) :=
  [(4, "w"), (3, "h."), (2, "h"), (3/2, "q."), (1, "q"),
   (3/4, "8."), (1/2, "8"), (1/4, "16"), (1/8, "32")]

/-- The keys of duration_map, in iteration order. -/
def durKeys : List ℚ := durationMap.map Prod.fst

/-- Python min(xs, key f) starting from a first candidate: keeps the
earlier candidate on ties, so it returns the first minimiser. -/
def pyMinBy (f : ℚ → ℚ) : ℚ → List ℚ → ℚ
  | b, [] => b
  | b, x :: xs => pyMinBy f (if f x < f b then x else b) xs

/-- closest_dur = min(duration_map.keys(), key fun x => abs (x - d)). -/
def closestDur (d : ℚ) : ℚ :=
  pyMinBy (fun x => |x - d|) (durKeys.headD 1) durKeys.tail

/-- _duration_to_vexflow: quantize a quarter length against the table;
within tolerance 0.1 return the mapped code, otherwise the quarter code. -/
def durationToVexflow (quarterLength : ℚ) : String :=
  let c := closestDur quarterLength
  if |c - quarterLength| < 1/10 then
    ((durationMap.lookup c).getD "q")
  else "q"

/-- A measure of the first part, as the collaborator exposes it to
_extract_measures: number, absolute offset, optional time signature,
optional key signature (sharps and display name), the first metronome
mark found inside it (as quarter BPM), and the count of its notes. -/
structure MeasureInfo where
  number : Int
  offsetQuarters : ℚ
  timeSignature : Option (Int × Int)
  keySignatureSharps : Option (Int × String)
  tempoMark : Option ℚ
  notesCount : Nat
  deriving DecidableEq

/-- One part of the score: its flattened elements (for the timeline) and
its measures (read by _extract_measures only for parts[0]). -/
structure ScorePart where
  elements : List ScoreElement
  measures : List MeasureInfo
  deriving DecidableEq

/-- One record of parsed_data.measures. -/
structure MeasureRecord where
  number : Int
  start_time_quarters : ℚ
  start_time_seconds : ℚ
  duration_quarters : Option ℚ
  duration_seconds : Option ℚ
  time_signature : Option (Int × Int)
  key_signature : Option (Int × String)
  tempo : Option ℚ
  notes_count : Nat
  deriving DecidableEq

/-- ts.barDuration.quarterLength for a numerator/denominator pair:
numerator beats of 4/denominator quarter lengths each. -/
def barDurationQL (ts : Int × Int) : ℚ :=
  (ts.1 : ℚ) * (4 / (ts.2 : ℚ))

/-- The record built for one measure in _extract_measures. -/
def measureRecord (bpm : ℚ) (m : MeasureInfo) : MeasureRecord :=
  { number := m.number
    start_time_quarters := m.offsetQuarters
    start_time_seconds := quarterLengthToSeconds bpm m.offsetQuarters
    duration_quarters := m.timeSignature.map barDurationQL
    duration_seconds :=
      m.timeSignature.map fun ts =>
        quarterLengthToSeconds bpm (barDurationQL ts)
    time_signature := m.timeSignature
    key_signature := m.keySignatureSharps
    tempo := m.tempoMark
    notes_count := m.notesCount }

/-- _extract_measures: iterates over self.score.parts[0] only; indexing
an empty parts list raises. -/
def extractMeasures (bpm : ℚ) (parts : List ScorePart) :
    Except String (List MeasureRecord) :=
  match parts with
  | [] => .error "IndexError"
  | p0 :: _ => .ok (p0.measures.map (measureRecord bpm))

/-- A note event starting at 0 s lasting 1 s, for concrete checks. -/
def wEvA : TimedEvent :=
  createNoteData ⟨"C", 4, 60, 0⟩ none [] ⟨0, 2, 0, 1, some 1⟩
/-- A note event starting at 0.5 s lasting 1 s, for concrete checks. -/
def wEvB : TimedEvent :=
  createNoteData ⟨"E", 4, 64, 0⟩ none [] ⟨1, 2, 1/2, 1, some 1⟩
/-- First event of the two-part example score: C note, offset 0,
duration 1 quarter, at 120 BPM. -/
def evC2n1 : TimedEvent :=
  createNoteData ⟨"C", 4, 60, 0⟩ none [] ⟨0, 1, 0, 1/2, some 1⟩
/-- Second event of the two-part example score: D note, offset 1,
duration 2 quarters, at 120 BPM. -/
def evC2n2 : TimedEvent :=
  createNoteData ⟨"D", 4, 62, 0⟩ none [] ⟨1, 2, 1/2, 1, some 1⟩
/-- Third event of the two-part example score: whole-measure rest of the
second part, offset 0, duration 4 quarters, at 120 BPM. -/
def evC2r : TimedEvent :=
  createRestData ⟨0, 4, 0, 2, some 1⟩
/-- A two-part example score: first part has a C at offset 0 and a D at
offset 1, second part has a whole-measure rest at offset 0. -/
def partsC2 : List (List ScoreElement) :=
  [[⟨.note ⟨"C", 4, 60, 0⟩ none [], 0, some 1, some 1⟩,
    ⟨.note ⟨"D", 4, 62, 0⟩ none [], 1, some 2, some 1⟩],
   [⟨.rest, 0, some 4, some 1⟩]]
/-- The C major triad used to check the chord claim. -/
def chordElemC3 : ScoreElement :=
  ⟨.chord [⟨"C", 4, 60, 0⟩, ⟨"E", 4, 64, 0⟩, ⟨"G", 4, 67, 0⟩] none
      (some "C") (some "major"), 2, some 1, some 1⟩
/-- The three chord_note events the build produces for chordElemC3 at
120 BPM. -/
def chordEvsC3 : List TimedEvent :=
  [createChordNoteData none (some "C") (some "major") ⟨"C", 4, 60, 0⟩
      ⟨2, 1, 1, 1/2, some 1⟩,
   createChordNoteData none (some "C") (some "major") ⟨"E", 4, 64, 0⟩
      ⟨2, 1, 1, 1/2, some 1⟩,
   createChordNoteData none (some "C") (some "major") ⟨"G", 4, 67, 0⟩
      ⟨2, 1, 1, 1/2, some 1⟩]
/-- A note event lasting exactly 0.5 s, for the tap/hold boundary. -/
def evTap : TimedEvent :=
  createNoteData ⟨"F", 4, 65, 0⟩ none [] ⟨0, 1, 0, 1/2, some 1⟩
/-- A note event whose enclosing-measure lookup returned nothing, so its
measure_number is null. -/
def evNoMeasure : TimedEvent :=
  createNoteData ⟨"B", 3, 59, 0⟩ none [] ⟨0, 1, 0, 1/2, none⟩
/-- The optional velocity attribute of a source element. -/
def elemVelocity : MElement → Option Int
  | .note _ v _ => v
  | .chord _ v _ _ => v
  | .rest => none
/-- A part consisting of a single rest. -/
def restOnlyPart : List ScoreElement := [⟨.rest, 0, some 1, some 1⟩]
/-- The first element of the two-part example score, a C note that does
not specify a velocity. -/
def noteElemC : ScoreElement :=
  ⟨.note ⟨"C", 4, 60, 0⟩ none [], 0, some 1, some 1⟩
/-- A part with a well-formed note followed by an element lacking
duration information. -/
def goodBadPart : List ScoreElement :=
  [⟨.note ⟨"C", 4, 60, 0⟩ none [], 0, some 1, some 1⟩,
   ⟨.rest, 1, none, some 1⟩]
/-- True of the build result exactly when the walk reached the end
without an error. -/
def buildOk (r : Except String (List TimedEvent × ℚ)) : Bool :=
  match r with
  | .ok _ => true
  | .error _ => false
/-- A first part carrying one measure, for the measure-table check. -/
def partC10 : ScorePart :=
  ⟨[], [⟨1, 0, some (4, 4), some (0, "C major"), none, 2⟩]⟩
/-- A second part carrying a different measure, which must not
contribute to the table. -/
def otherPartC10 : ScorePart :=
  ⟨[], [⟨9, 8, none, none, some 90, 5⟩]⟩

/-! ### Helper lemmas -/

/-- Appending inside an if-guarded foldl is filtering followed by
mapping: the shape of the source's accumulate-in-a-loop pattern. -/
theorem foldl_ite_append_map {α β : Type} (p : α → Prop) [DecidablePred p]
    (g : α → β) :
    ∀ (l : List α) (acc : List β),
      l.foldl (fun a n => if p n then a ++ [g n] else a) acc
        = acc ++ (l.filter fun n => decide (p n)).map g
  | [], acc => by simp
  | x :: xs, acc => by
    by_cases h : p x
    · simp only [List.foldl_cons, if_pos h, List.filter_cons,
        decide_eq_true h, List.map_cons, foldl_ite_append_map p g xs]
      simp
    · simp only [List.foldl_cons, if_neg h, List.filter_cons,
        decide_eq_false h, foldl_ite_append_map p g xs]
      simp [h]

/-- A left fold of max is an upper bound of the seed and the list. -/
theorem le_foldl_max : ∀ (xs : List ℚ) (b : ℚ),
    b ≤ xs.foldl max b ∧ ∀ x ∈ xs, x ≤ xs.foldl max b
  | [], b => by simp
  | x :: xs, b => by
    obtain ⟨h1, h2⟩ := le_foldl_max xs (max b x)
    refine ⟨le_trans (le_max_left b x) h1, ?_⟩
    intro y hy
    rcases List.mem_cons.mp hy with rfl | hy
    · exact le_trans (le_max_right b y) h1
    · exact h2 y hy

/-- A left fold of max is attained: it is the seed or a list element. -/
theorem foldl_max_mem : ∀ (xs : List ℚ) (b : ℚ),
    xs.foldl max b = b ∨ xs.foldl max b ∈ xs
  | [], b => Or.inl rfl
  | x :: xs, b => by
    have h := foldl_max_mem xs (max b x)
    simp only [List.foldl_cons]
    rcases h with h | h
    · rw [h]
      rcases le_total x b with hxb | hbx
      · exact Or.inl (max_eq_left hxb)
      · right
        rw [max_eq_right hbx]
        exact List.mem_cons_self x xs
    · exact Or.inr (List.mem_cons_of_mem x h)

/-- Python min with a key function keeps the first minimiser: the result
is the seed or an element, and its key is minimal among all of them. -/
theorem pyMinBy_spec (f : ℚ → ℚ) : ∀ (xs : List ℚ) (b : ℚ),
    (pyMinBy f b xs = b ∨ pyMinBy f b xs ∈ xs) ∧
      f (pyMinBy f b xs) ≤ f b ∧ ∀ x ∈ xs, f (pyMinBy f b xs) ≤ f x
  | [], b => by simp [pyMinBy]
  | x :: xs, b => by
    rw [pyMinBy]
    by_cases h : f x < f b
    · rw [if_pos h]
      obtain ⟨hmem, hle, hall⟩ := pyMinBy_spec f xs x
      refine ⟨?_, le_trans hle (le_of_lt h), ?_⟩
      · rcases hmem with hm | hm
        · right
          rw [hm]
          exact List.mem_cons_self x xs
        · exact Or.inr (List.mem_cons_of_mem x hm)
      · intro y hy
        rcases List.mem_cons.mp hy with rfl | hy
        · exact hle
        · exact hall y hy
    · rw [if_neg h]
      obtain ⟨hmem, hle, hall⟩ := pyMinBy_spec f xs b
      refine ⟨?_, hle, ?_⟩
      · rcases hmem with hm | hm
        · exact Or.inl hm
        · exact Or.inr (List.mem_cons_of_mem x hm)
      · intro y hy
        rcases List.mem_cons.mp hy with rfl | hy
        · exact le_trans hle (le_of_not_lt h)
        · exact hall y hy

/-- Stability of the modelled sort, as filter preservation: the events
with any fixed start time appear in the sorted list exactly as they
appeared, in order, in the unsorted one. -/
theorem filter_stableSortByStart (l : List TimedEvent) (k : ℚ) :
    (stableSortByStart l).filter (fun n => decide (n.start_time_seconds = k))
      = l.filter (fun n => decide (n.start_time_seconds = k)) := by
  set p : TimedEvent → Bool := fun n => decide (n.start_time_seconds = k) with hp
  have hpw : (l.filter p).Pairwise leStart := by
    refine List.pairwise_of_forall_mem_list ?_
    intro a ha b hb
    have ha' : a.start_time_seconds = k := by
      have := List.of_mem_filter ha
      simpa [hp] using this
    have hb' : b.start_time_seconds = k := by
      have := List.of_mem_filter hb
      simpa [hp] using this
    unfold leStart
    rw [ha', hb']
  have hsub : (l.filter p).Sublist (List.insertionSort leStart l) :=
    List.sublist_insertionSort hpw (List.filter_sublist l)
  have hsub2 : ((l.filter p).filter p).Sublist
      ((List.insertionSort leStart l).filter p) := hsub.filter p
  have hself : (l.filter p).filter p = l.filter p := by
    refine List.filter_eq_self.mpr ?_
    intro a ha
    exact List.of_mem_filter ha
  rw [hself] at hsub2
  have hperm : ((List.insertionSort leStart l).filter p).Perm (l.filter p) :=
    (List.perm_insertionSort leStart l).filter p
  exact (hsub2.eq_of_length hperm.length_eq.symm).symm

/-! ### C1: RangeQuery -/

/-- Claim C1: for every timeline and bounds, getNotesForRange returns
exactly the events with start_time_seconds < endSeconds and
start_time_seconds + duration_seconds > startSeconds, in the timeline's
original order (a pure filter); an event ending exactly at startSeconds
or starting exactly at endSeconds is excluded, and an unspecified
endSeconds defaults to the timeline's total duration. -/
theorem rangeQuery_spec (notes : List TimedEvent) (total s : ℚ)
    (es : Option ℚ) :
    getNotesForRange notes total s es
        = notes.filter (fun n => decide (rangeSpecIncluded s (es.getD total) n)) ∧
    (∀ n, n ∈ getNotesForRange notes total s es ↔
        n ∈ notes ∧ rangeSpecIncluded s (es.getD total) n) ∧
    (∀ n ∈ notes, n.start_time_seconds + n.duration_seconds = s →
        n ∉ getNotesForRange notes total s es) ∧
    (∀ n ∈ notes, n.start_time_seconds = es.getD total →
        n ∉ getNotesForRange notes total s es) ∧
    getNotesForRange notes total s none
        = getNotesForRange notes total s (some total) := by
  have hmain : getNotesForRange notes total s es
      = notes.filter (fun n => decide (rangeSpecIncluded s (es.getD total) n)) := by
    cases es with
    | none =>
      show notes.foldl _ [] = _
      simpa using foldl_ite_append_map (rangeSpecIncluded s total) (fun n => n)
        notes []
    | some x =>
      show notes.foldl _ [] = _
      simpa using foldl_ite_append_map (rangeSpecIncluded s x) (fun n => n)
        notes []
  have hmem : ∀ n, n ∈ getNotesForRange notes total s es ↔
      n ∈ notes ∧ rangeSpecIncluded s (es.getD total) n := by
    intro n
    rw [hmain]
    simp [List.mem_filter]
  refine ⟨hmain, hmem, ?_, ?_, rfl⟩
  · intro n _ hend hin
    have h2 := ((hmem n).mp hin).2.2
    rw [hend] at h2
    exact lt_irrefl s h2
  · intro n _ hstart hin
    have h1 := ((hmem n).mp hin).2.1
    rw [hstart] at h1
    exact lt_irrefl _ h1



/-- Witness for C1 at the spec's own example: on the window from 1 s to
2 s, the event ending exactly at 1 s is excluded and the event from
0.5 s to 1.5 s is included. -/
theorem rangeQuery_spec_witness :
    wEvA ∉ getNotesForRange [wEvA, wEvB] 2 1 (some 2) ∧
    wEvB ∈ getNotesForRange [wEvA, wEvB] 2 1 (some 2) := by
  have h := rangeQuery_spec [wEvA, wEvB] 2 1 (some 2)
  constructor
  · exact h.2.2.1 wEvA (by simp)
      (by norm_num [wEvA, createNoteData])
  · exact (h.2.1 wEvB).mpr
      ⟨by simp, by constructor <;> norm_num [wEvB, createNoteData, rangeSpecIncluded]⟩

/-! ### C2: timeline ordering -/

/-- Claim C2: the timeline produced by the build is sorted ascending by
start_time_seconds, and events with equal start_time_seconds keep the
order in which the part walk first produced them (stable sort): the
subsequence at any fixed start time equals the corresponding subsequence
of the unsorted part-by-part event list. -/
theorem timeline_sorted_stable (bpm : ℚ) (parts : List (List ScoreElement))
    (nd : List TimedEvent) (td : ℚ)
    (h : extractNotesAndTiming bpm parts = .ok (nd, td)) :
    List.Sorted leStart nd ∧
    (∀ a b : TimedEvent, leStart a b ↔
        a.start_time_seconds ≤ b.start_time_seconds) ∧
    ∀ raw, collectRawEvents bpm parts = .ok raw →
      ∀ k : ℚ, nd.filter (fun n => decide (n.start_time_seconds = k))
        = raw.filter (fun n => decide (n.start_time_seconds = k)) := by
  unfold extractNotesAndTiming at h
  cases hc : collectRawEvents bpm parts with
  | error m => rw [hc] at h; exact absurd h (by simp)
  | ok raw0 =>
    rw [hc] at h
    simp only [Except.ok.injEq, Prod.mk.injEq] at h
    obtain ⟨h1, _⟩ := h
    refine ⟨?_, fun a b => Iff.rfl, ?_⟩
    · rw [← h1]
      exact List.sorted_insertionSort leStart raw0
    · intro raw hraw k
      have hcc : raw = raw0 := (Except.ok.inj hraw).symm
      rw [← h1, hcc]
      exact filter_stableSortByStart raw0 k





/-- Witness for C2: on the two-part example the build yields the sorted
timeline with the simultaneous events (the C and the rest, both at 0 s)
in part-walk order. -/
theorem timeline_sorted_stable_witness :
    List.Sorted leStart [evC2n1, evC2r, evC2n2] ∧
    [evC2n1, evC2r, evC2n2].filter
        (fun n => decide (n.start_time_seconds = 0))
      = [evC2n1, evC2n2, evC2r].filter
        (fun n => decide (n.start_time_seconds = 0)) := by
  have h := timeline_sorted_stable 120 partsC2 [evC2n1, evC2r, evC2n2] 2
    (by norm_num [extractNotesAndTiming, collectRawEvents, buildPart,
      processElement, partsC2, stableSortByStart, List.insertionSort,
      List.orderedInsert, leStart, quarterLengthToSeconds, totalDurationOf,
      pyMax, evC2n1, evC2n2, evC2r, createNoteData, createRestData])
  refine ⟨h.1, h.2.2 [evC2n1, evC2n2, evC2r] ?_ 0⟩
  norm_num [collectRawEvents, buildPart, processElement, partsC2,
    quarterLengthToSeconds, evC2n1, evC2n2, evC2r, createNoteData,
    createRestData]

/-! ### C3: chord decomposition -/

/-- Claim C3: a chord element with N pitches yields exactly N chord_note
events, all sharing the chord's start_time_quarters, duration_quarters,
start_time_seconds, duration_seconds, measure_number and velocity, with
the pitch fields taken from the chord's pitches in order. -/
theorem chord_explosion (bpm : ℚ) (e : ScoreElement) (ps : List MPitch)
    (vel : Option Int) (root quality : Option String) (d : ℚ)
    (evs : List TimedEvent)
    (he : e.elem = .chord ps vel root quality)
    (hd : e.durationQuarters = some d)
    (hp : processElement bpm e = .ok evs) :
    evs.length = ps.length ∧
    ∀ i (hi : i < evs.length) (hip : i < ps.length),
      (evs.get ⟨i, hi⟩).kind = "chord_note" ∧
      (evs.get ⟨i, hi⟩).pitch = some (ps.get ⟨i, hip⟩).name ∧
      (evs.get ⟨i, hi⟩).octave = some (ps.get ⟨i, hip⟩).octave ∧
      (evs.get ⟨i, hi⟩).midi_number = some (ps.get ⟨i, hip⟩).midi ∧
      (evs.get ⟨i, hi⟩).start_time_quarters = e.offsetQuarters ∧
      (evs.get ⟨i, hi⟩).duration_quarters = d ∧
      (evs.get ⟨i, hi⟩).start_time_seconds
        = quarterLengthToSeconds bpm e.offsetQuarters ∧
      (evs.get ⟨i, hi⟩).duration_seconds = quarterLengthToSeconds bpm d ∧
      (evs.get ⟨i, hi⟩).measure_number = e.measureNumber ∧
      (evs.get ⟨i, hi⟩).velocity = some (vel.getD 64) := by
  unfold processElement at hp
  rw [hd, he] at hp
  simp only [Except.ok.injEq] at hp
  subst hp
  refine ⟨by simp, ?_⟩
  intro i hi hip
  simp [List.getElem_map, createChordNoteData]



/-- Witness for C3: the C-E-G chord at offset 2, duration 1, yields
exactly 3 chord_note events with the first carrying pitch C and the
chord's shared timing. -/
theorem chord_explosion_witness :
    chordEvsC3.length = 3 ∧
    (chordEvsC3.get ⟨0, by simp [chordEvsC3]⟩).kind = "chord_note" ∧
    (chordEvsC3.get ⟨0, by simp [chordEvsC3]⟩).pitch = some "C" ∧
    (chordEvsC3.get ⟨2, by simp [chordEvsC3]⟩).pitch = some "G" ∧
    (chordEvsC3.get ⟨0, by simp [chordEvsC3]⟩).velocity = some 64 := by
  have h := chord_explosion 120 chordElemC3
    [⟨"C", 4, 60, 0⟩, ⟨"E", 4, 64, 0⟩, ⟨"G", 4, 67, 0⟩] none
    (some "C") (some "major") 1 chordEvsC3 rfl rfl
    (by norm_num [processElement, chordElemC3, chordEvsC3,
      quarterLengthToSeconds, createChordNoteData])
  refine ⟨h.1, (h.2 0 (by simp [chordEvsC3]) (by simp)).1,
    (h.2 0 (by simp [chordEvsC3]) (by simp)).2.1,
    (h.2 2 (by simp [chordEvsC3]) (by simp)).2.1,
    (h.2 0 (by simp [chordEvsC3]) (by simp)).2.2.2.2.2.2.2.2.2⟩

/-! ### C4: totalDuration -/

/-- Claim C4: the build's total duration is 0 for an empty timeline and
otherwise the maximum of start_time_seconds + duration_seconds over the
timeline's events. -/
theorem totalDuration_spec (bpm : ℚ) (parts : List (List ScoreElement))
    (nd : List TimedEvent) (td : ℚ)
    (h : extractNotesAndTiming bpm parts = .ok (nd, td)) :
    (nd = [] → td = 0) ∧
    (∀ n ∈ nd, n.start_time_seconds + n.duration_seconds ≤ td) ∧
    (nd ≠ [] → ∃ n ∈ nd, td = n.start_time_seconds + n.duration_seconds) := by
  have htd : td = totalDurationOf nd := by
    unfold extractNotesAndTiming at h
    cases hc : collectRawEvents bpm parts with
    | error m => rw [hc] at h; exact absurd h (by simp)
    | ok raw0 =>
      rw [hc] at h
      simp only [Except.ok.injEq, Prod.mk.injEq] at h
      obtain ⟨h1, h2⟩ := h
      rw [← h2, h1]
  subst htd
  unfold totalDurationOf
  cases hnd : nd with
  | nil => simp [pyMax]
  | cons n0 ns =>
    refine ⟨by simp, ?_, ?_⟩
    · intro n hn
      have := (le_foldl_max ((ns.map fun n => n.start_time_seconds
          + n.duration_seconds)) (n0.start_time_seconds + n0.duration_seconds))
      rcases List.mem_cons.mp hn with rfl | hn
      · simpa [pyMax] using this.1
      · have hm : n.start_time_seconds + n.duration_seconds ∈
            ns.map fun n => n.start_time_seconds + n.duration_seconds :=
          List.mem_map_of_mem _ hn
        simpa [pyMax] using this.2 _ hm
    · intro _
      have hmem := foldl_max_mem
        (ns.map fun n => n.start_time_seconds + n.duration_seconds)
        (n0.start_time_seconds + n0.duration_seconds)
      rcases hmem with hm | hm
      · exact ⟨n0, List.mem_cons_self _ _, by simpa [pyMax] using hm⟩
      · obtain ⟨n, hn, hval⟩ := List.mem_map.mp hm
        exact ⟨n, List.mem_cons_of_mem _ hn, by simp [pyMax, hval]⟩

/-- Witness for C4: on the two-part example score the total duration is
2 s, attained by the whole-measure rest. -/
theorem totalDuration_spec_witness :
    ∃ n ∈ [evC2n1, evC2r, evC2n2],
      (2 : ℚ) = n.start_time_seconds + n.duration_seconds := by
  have h := totalDuration_spec 120 partsC2 [evC2n1, evC2r, evC2n2] 2
    (by norm_num [extractNotesAndTiming, collectRawEvents, buildPart,
      processElement, partsC2, stableSortByStart, List.insertionSort,
      List.orderedInsert, leStart, quarterLengthToSeconds, totalDurationOf,
      pyMax, evC2n1, evC2n2, evC2r, createNoteData, createRestData])
  exact h.2.2 (by simp)

/-! ### C5: duration quantization -/

/-- Association lookup returns a stored value. -/
theorem lookup_mem_values {α β : Type} [BEq α] :
    ∀ (l : List (α × β)) (a : α) (b : β),
      l.lookup a = some b → b ∈ l.map Prod.snd
  | [], a, b => by simp [List.lookup]
  | (k, v) :: es, a, b => by
    intro h
    rw [List.lookup] at h
    cases hbeq : a == k with
    | true =>
      rw [hbeq] at h
      simp only [Option.some.injEq] at h
      simp [h]
    | false =>
      rw [hbeq] at h
      exact List.mem_cons_of_mem _ (lookup_mem_values es a b h)

/-- Association lookup skips a non-matching head. -/
theorem lookup_cons_ne {α β : Type} [BEq α] [LawfulBEq α] (k : α) (v : β)
    (es : List (α × β)) (a : α) (h : a ≠ k) :
    ((k, v) :: es).lookup a = es.lookup a := by
  rw [List.lookup, beq_false_of_ne h]

/-- Association lookup finds a matching head. -/
theorem lookup_cons_self {α β : Type} [BEq α] [LawfulBEq α] (k : α) (v : β)
    (es : List (α × β)) : ((k, v) :: es).lookup k = some v := by
  rw [List.lookup, beq_self_eq_true]

/-- Claim C5: the notation duration code picks the table entry with
minimum absolute difference from the input; if that difference is below
0.1 the mapped code is returned and otherwise the quarter code; the
result is always one of the nine supported codes; and on the four spec
examples it evaluates to eighth, eighth, sixteenth and quarter. -/
theorem durationQuantization_spec (d : ℚ) :
    closestDur d ∈ durKeys ∧
    (∀ t ∈ durKeys, |closestDur d - d| ≤ |t - d|) ∧
    durationToVexflow d
      = (if |closestDur d - d| < 1/10 then
          (durationMap.lookup (closestDur d)).getD "q" else "q") ∧
    durationToVexflow d ∈ ["w", "h.", "h", "q.", "q", "8.", "8", "16", "32"] ∧
    durationToVexflow (1/2) = "8" ∧
    durationToVexflow (13/25) = "8" ∧
    durationToVexflow (3/10) = "16" ∧
    durationToVexflow (9/10) = "q" := by
  have hmemA : ∀ x : ℚ, closestDur x ∈ durKeys := by
    intro x
    have h := (pyMinBy_spec (fun t => |t - x|) durKeys.tail (durKeys.headD 1)).1
    rcases h with h | h
    · show closestDur x ∈ durKeys
      unfold closestDur
      rw [h]
      simp [durKeys, durationMap]
    · exact List.mem_of_mem_tail h
  have hminA : ∀ x : ℚ, ∀ t ∈ durKeys, |closestDur x - x| ≤ |t - x| := by
    intro x t ht
    have h := (pyMinBy_spec (fun t => |t - x|) durKeys.tail (durKeys.headD 1)).2
    have hcons : durKeys = durKeys.headD 1 :: durKeys.tail := rfl
    rw [hcons] at ht
    rcases List.mem_cons.mp ht with rfl | ht
    · exact h.1
    · exact h.2 t ht
  have hifA : ∀ x : ℚ, durationToVexflow x
      = (if |closestDur x - x| < 1/10 then
          (durationMap.lookup (closestDur x)).getD "q" else "q") := fun _ => rfl
  have hvals : durationMap.map Prod.snd
      = ["w", "h.", "h", "q.", "q", "8.", "8", "16", "32"] := rfl
  have hcodes : durationToVexflow d
      ∈ ["w", "h.", "h", "q.", "q", "8.", "8", "16", "32"] := by
    rw [hifA d]
    by_cases hlt : |closestDur d - d| < 1/10
    · rw [if_pos hlt]
      cases hlook : durationMap.lookup (closestDur d) with
      | none => simp
      | some s =>
        have := lookup_mem_values durationMap (closestDur d) s hlook
        rw [hvals] at this
        simpa using this
    · rw [if_neg hlt]
      simp
  have hhalf : closestDur (1/2) = 1/2 := by
    have h := hminA (1/2) (1/2) (by norm_num [durKeys, durationMap])
    have h0 : |closestDur (1/2) - 1/2| ≤ 0 := by simpa using h
    have h1 := abs_nonpos_iff.mp h0
    linarith [sub_eq_zero.mp h1]
  have hlook8 : durationMap.lookup ((1:ℚ)/2) = some "8" := by
    rw [durationMap]
    rw [lookup_cons_ne _ _ _ _ (by norm_num)]
    rw [lookup_cons_ne _ _ _ _ (by norm_num)]
    rw [lookup_cons_ne _ _ _ _ (by norm_num)]
    rw [lookup_cons_ne _ _ _ _ (by norm_num)]
    rw [lookup_cons_ne _ _ _ _ (by norm_num)]
    rw [lookup_cons_ne _ _ _ _ (by norm_num)]
    rw [lookup_cons_self]
  have hlook16 : durationMap.lookup ((1:ℚ)/4) = some "16" := by
    rw [durationMap]
    rw [lookup_cons_ne _ _ _ _ (by norm_num)]
    rw [lookup_cons_ne _ _ _ _ (by norm_num)]
    rw [lookup_cons_ne _ _ _ _ (by norm_num)]
    rw [lookup_cons_ne _ _ _ _ (by norm_num)]
    rw [lookup_cons_ne _ _ _ _ (by norm_num)]
    rw [lookup_cons_ne _ _ _ _ (by norm_num)]
    rw [lookup_cons_ne _ _ _ _ (by norm_num)]
    rw [lookup_cons_self]
  have hex1 : durationToVexflow (1/2) = "8" := by
    rw [hifA, hhalf]
    rw [if_pos (by norm_num)]
    rw [hlook8]
    rfl
  have hex2 : durationToVexflow (13/25) = "8" := by
    have hc : closestDur (13/25) = 1/2 := by
      have hb := hminA (13/25) (1/2) (by norm_num [durKeys, durationMap])
      have hb' : |closestDur (13/25) - 13/25| ≤ 1/50 := by
        calc |closestDur (13/25) - 13/25| ≤ |(1:ℚ)/2 - 13/25| := hb
        _ = 1/50 := by rw [abs_of_nonpos (by norm_num)]; norm_num
      have hmem := hmemA (13/25)
      have hd : closestDur (13/25) = 4 ∨ closestDur (13/25) = 3 ∨
          closestDur (13/25) = 2 ∨ closestDur (13/25) = 3/2 ∨
          closestDur (13/25) = 1 ∨ closestDur (13/25) = 3/4 ∨
          closestDur (13/25) = 1/2 ∨ closestDur (13/25) = 1/4 ∨
          closestDur (13/25) = 1/8 := by
        simpa [durKeys, durationMap] using hmem
      rcases hd with h | h | h | h | h | h | h | h | h <;>
        first
          | exact h
          | (rw [h] at hb'; rw [abs_sub_le_iff] at hb'; norm_num at hb')
    rw [hifA, hc]
    rw [if_pos (by rw [abs_sub_lt_iff]; norm_num)]
    rw [hlook8]
    rfl
  have hex3 : durationToVexflow (3/10) = "16" := by
    have hc : closestDur (3/10) = 1/4 := by
      have hb := hminA (3/10) (1/4) (by norm_num [durKeys, durationMap])
      have hb' : |closestDur (3/10) - 3/10| ≤ 1/20 := by
        calc |closestDur (3/10) - 3/10| ≤ |(1:ℚ)/4 - 3/10| := hb
        _ = 1/20 := by rw [abs_of_nonpos (by norm_num)]; norm_num
      have hmem := hmemA (3/10)
      have hd : closestDur (3/10) = 4 ∨ closestDur (3/10) = 3 ∨
          closestDur (3/10) = 2 ∨ closestDur (3/10) = 3/2 ∨
          closestDur (3/10) = 1 ∨ closestDur (3/10) = 3/4 ∨
          closestDur (3/10) = 1/2 ∨ closestDur (3/10) = 1/4 ∨
          closestDur (3/10) = 1/8 := by
        simpa [durKeys, durationMap] using hmem
      rcases hd with h | h | h | h | h | h | h | h | h <;>
        first
          | exact h
          | (rw [h] at hb'; rw [abs_sub_le_iff] at hb'; norm_num at hb')
    rw [hifA, hc]
    rw [if_pos (by rw [abs_sub_lt_iff]; norm_num)]
    rw [hlook16]
    rfl
  have hex4 : durationToVexflow (9/10) = "q" := by
    have hmem := hmemA (9/10)
    have hd : closestDur (9/10) = 4 ∨ closestDur (9/10) = 3 ∨
        closestDur (9/10) = 2 ∨ closestDur (9/10) = 3/2 ∨
        closestDur (9/10) = 1 ∨ closestDur (9/10) = 3/4 ∨
        closestDur (9/10) = 1/2 ∨ closestDur (9/10) = 1/4 ∨
        closestDur (9/10) = 1/8 := by
      simpa [durKeys, durationMap] using hmem
    have hnot : ¬ |closestDur (9/10) - 9/10| < 1/10 := by
      rcases hd with h | h | h | h | h | h | h | h | h <;>
        (rw [h, abs_sub_lt_iff]; norm_num)
    rw [hifA, if_neg hnot]
  exact ⟨hmemA d, hminA d, hifA d, hcodes, hex1, hex2, hex3, hex4⟩

/-- Witness for C5 at the concrete input 0.52: the nearest table entry
is within tolerance of the input and the eighth code is produced. -/
theorem durationQuantization_spec_witness :
    (|closestDur (13/25) - 13/25| ≤ |(1:ℚ)/2 - 13/25|) ∧
    durationToVexflow (13/25) = "8" := by
  have h := durationQuantization_spec (13/25)
  exact ⟨h.2.1 (1/2) (by norm_num [durKeys, durationMap]), h.2.2.2.2.2.1⟩

/-! ### C6: game-notes projection -/

/-- Claim C6: the game projection keeps exactly the note and chord_note
events, in timeline order, and classifies an event as hold iff its
duration in seconds is strictly greater than 0.5, so a 0.5-second event
is a tap. -/
theorem gameNotes_spec (notes : List TimedEvent) :
    getMidiNotesForGame notes
      = (notes.filter fun n =>
          decide (n.kind = "note" ∨ n.kind = "chord_note")).map toGameNote ∧
    (∀ n : TimedEvent,
        ((toGameNote n).note_type = "hold" ↔ 1/2 < n.duration_seconds)) ∧
    (∀ n : TimedEvent,
        ((toGameNote n).note_type = "tap" ↔ ¬ 1/2 < n.duration_seconds)) ∧
    (∀ n : TimedEvent, n.duration_seconds = 1/2 →
        (toGameNote n).note_type = "tap") := by
  have hhold : ∀ n : TimedEvent,
      (toGameNote n).note_type = "hold" ↔ 1/2 < n.duration_seconds := by
    intro n
    show (if n.duration_seconds > 1/2 then "hold" else "tap") = "hold"
      ↔ 1/2 < n.duration_seconds
    split_ifs with h
    · exact iff_of_true rfl h
    · exact iff_of_false (by simp) h
  have htap : ∀ n : TimedEvent,
      (toGameNote n).note_type = "tap" ↔ ¬ 1/2 < n.duration_seconds := by
    intro n
    show (if n.duration_seconds > 1/2 then "hold" else "tap") = "tap"
      ↔ ¬ 1/2 < n.duration_seconds
    split_ifs with h
    · exact iff_of_false (by simp) (fun hc => hc h)
    · exact iff_of_true rfl h
  refine ⟨?_, hhold, htap, ?_⟩
  · show notes.foldl _ [] = _
    simpa using foldl_ite_append_map
      (fun n : TimedEvent => n.kind = "note" ∨ n.kind = "chord_note")
      toGameNote notes []
  · intro n h
    refine (htap n).mpr ?_
    rw [h]
    exact lt_irrefl _


/-- Witness for C6: a 0.5-second note is classified tap, and the game
projection of a one-note timeline is that converted note. -/
theorem gameNotes_spec_witness :
    (toGameNote evTap).note_type = "tap" ∧
    getMidiNotesForGame [evTap] = [toGameNote evTap] := by
  have h := gameNotes_spec [evTap]
  constructor
  · exact h.2.2.2 evTap (by norm_num [evTap, createNoteData])
  · rw [h.1]
    simp [evTap, createNoteData]

/-! ### C7: measure default in the game projection -/


/-- Claim C7 evaluated on the code: for an event with a null
measure_number the game projection emits measure = null, not the
spec's default of 1 — the written default is dead because the
measure_number key is always present. -/
theorem gameMeasure_code_eval :
    (getMidiNotesForGame [evNoMeasure]).map GameNote.measure = [none] ∧
    (getMidiNotesForGame [evNoMeasure]).map GameNote.measure ≠ [some 1] := by
  constructor
  · simp [getMidiNotesForGame, toGameNote, evNoMeasure, createNoteData]
  · simp [getMidiNotesForGame, toGameNote, evNoMeasure, createNoteData]

/-! ### C8: velocity fields -/



/-- Counterexample to C8 as stated: the build of a single-rest score
yields one event whose velocity field is absent (none), so not every
timeline event carries an integer velocity. -/
theorem restVelocity_counterexample :
    ((extractNotesAndTiming 120 [restOnlyPart]).toOption.map
        fun p => p.1.map TimedEvent.velocity) = some [none] := by
  norm_num [extractNotesAndTiming, collectRawEvents, buildPart,
    processElement, restOnlyPart, stableSortByStart, List.insertionSort,
    List.orderedInsert, createRestData, Except.toOption, totalDurationOf,
    pyMax, quarterLengthToSeconds]

/-- C8 amended: note and chord_note events carry an integer velocity,
equal to 64 whenever the source element does not specify one; rest
events carry no velocity field. -/
theorem velocity_amended (bpm : ℚ) (e : ScoreElement)
    (evs : List TimedEvent) (h : processElement bpm e = .ok evs) :
    ∀ ev ∈ evs,
      (ev.kind = "rest" → ev.velocity = none) ∧
      (ev.kind ≠ "rest" → ∃ v : Int, ev.velocity = some v ∧
        (elemVelocity e.elem = none → v = 64)) := by
  unfold processElement at h
  cases hd : e.durationQuarters with
  | none => rw [hd] at h; exact absurd h (by simp)
  | some dq =>
    rw [hd] at h
    cases he : e.elem with
    | note p vel arts =>
      rw [he] at h
      simp only [Except.ok.injEq] at h
      subst h
      intro ev hev
      simp only [List.mem_singleton] at hev
      subst hev
      constructor
      · intro hk
        exact absurd hk (by simp [createNoteData])
      · intro _
        refine ⟨vel.getD 64, rfl, ?_⟩
        intro hv
        simp only [elemVelocity] at hv
        rw [hv]
        rfl
    | chord ps vel root quality =>
      rw [he] at h
      simp only [Except.ok.injEq] at h
      subst h
      intro ev hev
      obtain ⟨p, _, hp⟩ := List.mem_map.mp hev
      subst hp
      constructor
      · intro hk
        exact absurd hk (by simp [createChordNoteData])
      · intro _
        refine ⟨vel.getD 64, rfl, ?_⟩
        intro hv
        simp only [elemVelocity] at hv
        rw [hv]
        rfl
    | rest =>
      rw [he] at h
      simp only [Except.ok.injEq] at h
      subst h
      intro ev hev
      simp only [List.mem_singleton] at hev
      subst hev
      exact ⟨fun _ => rfl, fun hk => absurd rfl hk⟩


/-- Witness for the amended C8: the note event built from a note element
with unspecified velocity carries velocity 64. -/
theorem velocity_amended_witness : evC2n1.velocity = some 64 := by
  have h := velocity_amended 120 noteElemC [evC2n1]
    (by norm_num [processElement, noteElemC, quarterLengthToSeconds,
      createNoteData, evC2n1])
  obtain ⟨v, hv, hd⟩ := (h evC2n1 (by simp)).2
    (by simp [evC2n1, createNoteData])
  rw [hv, hd (by simp [noteElemC, elemVelocity])]

/-! ### C9: missing duration handling -/


/-- Counterexample to C9 as stated: with one malformed element present,
the whole build fails instead of producing a timeline that merely
excludes it — the well-formed note is not delivered either. -/
theorem missingDuration_counterexample :
    extractNotesAndTiming 120 [goodBadPart] = .error "missing duration" := by
  rfl


/-- An element can be processed exactly when its duration is present. -/
theorem processElement_ok_iff (bpm : ℚ) (e : ScoreElement) :
    (∃ evs, processElement bpm e = .ok evs) ↔ e.durationQuarters ≠ none := by
  unfold processElement
  cases hd : e.durationQuarters with
  | none =>
    simp only [ne_eq, not_true_eq_false, iff_false, not_exists]
    intro evs h
    exact absurd h (by simp)
  | some dq =>
    simp only [ne_eq, reduceCtorEq, not_false_eq_true, iff_true]
    cases e.elem with
    | note p vel arts => exact ⟨_, rfl⟩
    | chord ps vel root quality => exact ⟨_, rfl⟩
    | rest => exact ⟨_, rfl⟩

/-- A part walk succeeds exactly when every element has a duration. -/
theorem buildPart_ok_iff (bpm : ℚ) : ∀ es : List ScoreElement,
    (∃ evs, buildPart bpm es = .ok evs)
      ↔ ∀ e ∈ es, e.durationQuarters ≠ none
  | [] => by simp [buildPart]
  | e :: es => by
    simp only [buildPart]
    cases hpe : processElement bpm e with
    | error m =>
      constructor
      · rintro ⟨evs, h⟩
        exact absurd h (by simp)
      · intro hall
        exfalso
        obtain ⟨evs, hevs⟩ := (processElement_ok_iff bpm e).mpr
          (hall e (List.mem_cons_self _ _))
        rw [hpe] at hevs
        exact absurd hevs (by simp)
    | ok evs0 =>
      cases hbp : buildPart bpm es with
      | error m =>
        constructor
        · rintro ⟨evs, h⟩
          exact absurd h (by simp)
        · intro hall
          exfalso
          obtain ⟨evs, hevs⟩ := (buildPart_ok_iff bpm es).mpr
            (fun x hx => hall x (List.mem_cons_of_mem _ hx))
          rw [hbp] at hevs
          exact absurd hevs (by simp)
      | ok rest =>
        constructor
        · intro _ x hx
          rcases List.mem_cons.mp hx with rfl | hx
          · exact (processElement_ok_iff bpm x).mp ⟨evs0, hpe⟩
          · exact ((buildPart_ok_iff bpm es).mp ⟨rest, hbp⟩) x hx
        · intro _
          exact ⟨evs0 ++ rest, rfl⟩

/-- The part-by-part walk succeeds exactly when every element of every
part has a duration. -/
theorem collectRawEvents_ok_iff (bpm : ℚ) : ∀ ps : List (List ScoreElement),
    (∃ evs, collectRawEvents bpm ps = .ok evs)
      ↔ ∀ p ∈ ps, ∀ e ∈ p, e.durationQuarters ≠ none
  | [] => by simp [collectRawEvents]
  | p :: ps => by
    simp only [collectRawEvents]
    cases hbp : buildPart bpm p with
    | error m =>
      constructor
      · rintro ⟨evs, h⟩
        exact absurd h (by simp)
      · intro hall
        exfalso
        obtain ⟨evs, hevs⟩ := (buildPart_ok_iff bpm p).mpr
          (hall p (List.mem_cons_self _ _))
        rw [hbp] at hevs
        exact absurd hevs (by simp)
    | ok evs0 =>
      cases hc : collectRawEvents bpm ps with
      | error m =>
        constructor
        · rintro ⟨evs, h⟩
          exact absurd h (by simp)
        · intro hall
          exfalso
          obtain ⟨evs, hevs⟩ := (collectRawEvents_ok_iff bpm ps).mpr
            (fun x hx => hall x (List.mem_cons_of_mem _ hx))
          rw [hc] at hevs
          exact absurd hevs (by simp)
      | ok rest =>
        constructor
        · intro _ x hx
          rcases List.mem_cons.mp hx with rfl | hx
          · exact ((buildPart_ok_iff bpm x).mp ⟨evs0, hbp⟩)
          · exact ((collectRawEvents_ok_iff bpm ps).mp ⟨rest, hc⟩) x hx
        · intro _
          exact ⟨evs0 ++ rest, rfl⟩

/-- C9 amended: the timeline build succeeds exactly when every element
of every part carries duration information; an element lacking it makes
the whole build abort with an error rather than being skipped. -/
theorem missingDuration_amended (bpm : ℚ)
    (parts : List (List ScoreElement)) :
    buildOk (extractNotesAndTiming bpm parts) = true ↔
      ∀ p ∈ parts, ∀ e ∈ p, e.durationQuarters ≠ none := by
  unfold extractNotesAndTiming
  cases hc : collectRawEvents bpm parts with
  | error m =>
    simp only [buildOk, Bool.false_eq_true, false_iff]
    intro hall
    obtain ⟨evs, hevs⟩ := (collectRawEvents_ok_iff bpm parts).mpr hall
    rw [hc] at hevs
    exact absurd hevs (by simp)
  | ok raw =>
    simp only [buildOk, true_iff]
    exact (collectRawEvents_ok_iff bpm parts).mp ⟨raw, hc⟩

/-! ### C10: measures come from the first part only -/

/-- Claim C10: the measure-record table is built from the first part
alone — one record per measure of part 0 in document order, each derived
from that measure, and replacing every other part leaves the table
unchanged. -/
theorem measuresFirstPart (bpm : ℚ) (p0 : ScorePart)
    (rest rest2 : List ScorePart) :
    extractMeasures bpm (p0 :: rest)
        = .ok (p0.measures.map (measureRecord bpm)) ∧
    (p0.measures.map (measureRecord bpm)).length = p0.measures.length ∧
    (∀ i (hi : i < (p0.measures.map (measureRecord bpm)).length)
        (hm : i < p0.measures.length),
      (p0.measures.map (measureRecord bpm)).get ⟨i, hi⟩
        = measureRecord bpm (p0.measures.get ⟨i, hm⟩)) ∧
    extractMeasures bpm (p0 :: rest) = extractMeasures bpm (p0 :: rest2) := by
  refine ⟨rfl, by simp, ?_, rfl⟩
  intro i hi hm
  simp [List.getElem_map]



/-- Witness for C10: with two parts the table equals the one-record
projection of the first part, and swapping the second part for nothing
leaves it unchanged. -/
theorem measuresFirstPart_witness :
    extractMeasures 120 [partC10, otherPartC10]
        = .ok (partC10.measures.map (measureRecord 120)) ∧
    extractMeasures 120 [partC10, otherPartC10]
        = extractMeasures 120 [partC10] := by
  have h := measuresFirstPart 120 partC10 [otherPartC10] []
  exact ⟨h.1, h.2.2.2⟩

/-- Witness for the amended C9: a score whose only element carries a
duration builds successfully. -/
theorem missingDuration_amended_witness :
    buildOk (extractNotesAndTiming 120 [[noteElemC]]) = true := by
  exact (missingDuration_amended 120 [[noteElemC]]).mpr
    (by simp [noteElemC])
